import Mathlib

/-!
Shallow embedding of `scripts/git_toolbox.py` (a local Git reporting
toolbox: changelog builder, manifest builder, WIP push gate) and proofs of
the specification claims about it.

External subprocess queries (`git log`, `git ls-tree`) are modelled as
`Except ExtErr (List String)` parameters: either the list of output lines,
or a failure of the external tool.  File writes are modelled by the final
content of each output document (`Option String`: `none` when the file was
never opened).  Python's uncaught exceptions and `sys.exit(1)` are both
modelled as exit code 1.
-/

namespace GitToolbox

/-- Python `str.split(sep, maxsplit)` on a single-character separator,
working over the character list.  `maxsplit` counts the remaining allowed
splits; when it reaches 0 the rest of the input is one final field. -/
def pySplitAux (sep : Char) : Nat → List Char → List Char → List (List Char)
  | _, acc, [] => [acc]
  | 0, acc, rest => [acc ++ rest]
  | Nat.succ k, acc, c :: rest =>
    if c = sep then acc :: pySplitAux sep k [] rest
    else pySplitAux sep (Nat.succ k) (acc ++ [c]) rest

/-- Python `s.split(sep, maxsplit)` for a one-character `sep`. -/
def pySplit (s : String) (sep : Char) (maxsplit : Nat) : List String :=
  (pySplitAux sep maxsplit [] s.data).map (fun l => ⟨l⟩)

/-- The ASCII whitespace characters recognised by Python's default
`str.strip` / `str.split()` (space, tab, newline, carriage return,
vertical tab, form feed). -/
def pyIsSpace (c : Char) : Bool :=
  c = ' ' || c = '\t' || c = '\n' || c = '\r' || c = Char.ofNat 11 || c = Char.ofNat 12

/-- Python `str.strip()` with default (whitespace) argument. -/
def pyStrip (s : String) : String :=
  ⟨((s.data.dropWhile pyIsSpace).reverse.dropWhile pyIsSpace).reverse⟩

/-- Python `s.split(maxsplit=1)` (whitespace split, at most one split):
leading whitespace is skipped, the first whitespace run separates the two
fields, and a whitespace-only remainder is dropped. -/
def pySplitWs1 (s : String) : List String :=
  match s.data.dropWhile pyIsSpace with
  | [] => []
  | c :: cs =>
    let tok := (c :: cs).takeWhile (fun ch => !(pyIsSpace ch))
    let rest := ((c :: cs).dropWhile (fun ch => !(pyIsSpace ch))).dropWhile pyIsSpace
    if rest.isEmpty then [⟨tok⟩] else [⟨tok⟩, ⟨rest⟩]

/-- Python `str.upper()` (ASCII fragment, which is all the WIP check needs). -/
def pyUpper (s : String) : String := ⟨s.data.map Char.toUpper⟩

/-- Python `str.lower()` (ASCII fragment, used by the CLI dispatcher). -/
def pyLower (s : String) : String := ⟨s.data.map Char.toLower⟩

/-- `hasPre needle hay`: `needle` is an initial segment of `hay`. -/
def hasPre : List Char → List Char → Bool
  | [], _ => true
  | _ :: _, [] => false
  | a :: as, b :: bs => a = b && hasPre as bs

/-- Python's `needle in hay` substring test. -/
def hasSub (needle : List Char) : List Char → Bool
  | [] => hasPre needle []
  | c :: rest => hasPre needle (c :: rest) || hasSub needle rest

/-- Python `"|" in line`. -/
def pipeIn (s : String) : Bool := s.data.contains '|'

/-- Python `line.startswith(("A", "D"))`. -/
def startsAD (s : String) : Bool :=
  match s.data with
  | [] => false
  | c :: _ => c = 'A' || c = 'D'

/-- `"WIP" in msg.upper()` — the WIP-gate test from `check_wip`. -/
def wipMatch (msg : String) : Bool := hasSub "WIP".data (pyUpper msg).data

/-- A commit record as produced by
`git log --pretty=format:%H|%ad|%an|%s --date=short`. -/
structure Commit where
  hash : String
  date : String
  author : String
  msg : String
deriving DecidableEq

/-- The log line carrying a commit, in the format the script requests. -/
def formatLine (c : Commit) : String :=
  c.hash ++ "|" ++ c.date ++ "|" ++ c.author ++ "|" ++ c.msg

/-- The four fields of `hash`, `date` and `author` contain no delimiter
(the script's own format guarantees this for real git output). -/
def wfCommit (c : Commit) : Prop :=
  '|' ∉ c.hash.data ∧ '|' ∉ c.date.data ∧ '|' ∉ c.author.data

instance (c : Commit) : Decidable (wfCommit c) := by
  unfold wfCommit; infer_instance

/-- `_, date, author, msg = line.split("|", 3)`: the four-way unpack used
at `build_changelog` line 33/38 and `check_wip` line 134.  `none` models
the `ValueError` Python raises on a wrong field count. -/
def parseCommitLine (line : String) : Option Commit :=
  match pySplit line '|' 3 with
  | [h, d, a, m] => some ⟨h, d, a, m⟩
  | _ => none

end GitToolbox

namespace GitToolbox

/-- The script's `RECENT_LIMIT = 5` constant. -/
def RECENT_LIMIT : Nat := 5

/-- `d[key].append(v)` on a `defaultdict(list)`, modelled on an association
list that keeps keys in insertion order (Python dict order). -/
def appendEntry {α : Type} (key : String) (v : α) :
    List (String × List α) → List (String × List α)
  | [] => [(key, [v])]
  | (k, vs) :: rest =>
    if k = key then (k, vs ++ [v]) :: rest else (k, vs) :: appendEntry key v rest

/-- Dictionary lookup: `d[key]` guarded by `key in d`. -/
def lookupEntries {α : Type} (key : String) :
    List (String × List α) → Option (List α)
  | [] => none
  | (k, vs) :: rest => if k = key then some vs else lookupEntries key rest

/-- The entry list of `key`, or `[]` when absent. -/
def entriesOf {α : Type} (key : String) (m : List (String × List α)) : List α :=
  (lookupEntries key m).getD []

/-- `build_changelog` lines 31-34: `grouped[date].append((msg, author))`
over the commits in order. -/
def groupByDate (commits : List Commit) : List (String × List (String × String)) :=
  commits.foldl (fun acc c => appendEntry c.date (c.msg, c.author) acc) []

/-- The descending-`≥` relation used to model
`sorted(grouped.keys(), reverse=True)`. -/
def geStr (a b : String) : Prop := b ≤ a

instance : DecidableRel geStr := fun a b => inferInstanceAs (Decidable (b ≤ a))

instance : IsTotal String geStr := ⟨fun a b => le_total b a⟩

instance : IsTrans String geStr := ⟨fun _ _ _ h1 h2 => le_trans h2 h1⟩

/-- `sorted(grouped.keys(), reverse=True)` (line 42). -/
def changelogDates (commits : List Commit) : List String :=
  List.insertionSort geStr ((groupByDate commits).map Prod.fst)

/-- The full-history section of the changelog: one `(date, entries)` group
per date subsection, in the order the script emits them. -/
def changelogHistory (commits : List Commit) :
    List (String × List (String × String)) :=
  (changelogDates commits).map (fun d => (d, entriesOf d (groupByDate commits)))

/-- One summary bullet: `f"- {date} — {msg} — Author: {author}\n"` (line 39). -/
def summaryLine (c : Commit) : String :=
  "- " ++ c.date ++ " — " ++ c.msg ++ " — Author: " ++ c.author ++ "\n"

/-- The Summary section entries: `commits[:RECENT_LIMIT]` rendered (lines 37-39). -/
def changelogSummary (commits : List Commit) : List String :=
  (commits.take RECENT_LIMIT).map summaryLine

/-- One date subsection of the full history (lines 43-46). -/
def dateSection (p : String × List (String × String)) : String :=
  "### " ++ p.1 ++ "\n\n"
    ++ String.join (p.2.map (fun q => "- " ++ q.1 ++ " — " ++ q.2 ++ "\n"))
    ++ "\n"

/-- The complete text written to CHANGELOG.md on a successful run. -/
def renderChangelog (commits : List Commit) : String :=
  "# CHANGELOG\n\n" ++ "## Summary (Last 5 Commits)\n\n"
    ++ String.join (changelogSummary commits)
    ++ "\n## Full History\n\n"
    ++ String.join ((changelogHistory commits).map dateSection)

/-- A failure of an external `git` subprocess
(`subprocess.CalledProcessError` / `FileNotFoundError`). -/
inductive ExtErr
  | toolError
deriving DecidableEq

/-- Errors raised while `build_manifest` parses the extended log:
`noContext` models the `KeyError` on `current_commit['date']` when a
status line precedes every header line; `badStatusLine` models the
`ValueError` when `line.split(maxsplit=1)` yields a single field. -/
inductive PErr
  | noContext
  | badStatusLine
deriving DecidableEq

/-- The `current_commit` dictionary contents (hash, date, msg). -/
structure Ctx where
  hash : String
  date : String
  msg : String
deriving DecidableEq

/-- The mutable state of `build_manifest`'s parse loop (lines 71-97). -/
structure MState where
  ctx : Option Ctx
  added : List (String × List String)
  deleted : List (String × List String)
  recent : List String
deriving DecidableEq

/-- The state before the loop: empty `current_commit`, empty defaultdicts,
empty `recent_changes`. -/
def initMState : MState := ⟨none, [], [], []⟩

/-- One iteration of `build_manifest`'s parse loop (lines 80-97). -/
def manifestStep (st : MState) (line : String) : Except PErr MState :=
  if pipeIn line then
    match pySplit (pyStrip line) '|' 2 with
    | [h, d, m] => .ok { st with ctx := some ⟨h, d, m⟩ }
    | _ => .ok st
  else if startsAD line then
    match pySplitWs1 line with
    | [status, path] =>
      match st.ctx with
      | none => .error .noContext
      | some c =>
        let entry := c.date ++ " — " ++ c.msg
        if status = "A" then
          .ok { st with
            added := appendEntry path entry st.added,
            recent := st.recent
              ++ [c.date ++ " — Added " ++ path ++ " — \"" ++ c.msg ++ "\""] }
        else if status = "D" then
          .ok { st with
            deleted := appendEntry path entry st.deleted,
            recent := st.recent
              ++ [c.date ++ " — Deleted " ++ path ++ " — \"" ++ c.msg ++ "\""] }
        else .ok st
    | _ => .error .badStatusLine
  else .ok st

/-- The parse loop over the remaining lines. -/
def manifestSteps (st : MState) : List String → Except PErr MState
  | [] => .ok st
  | l :: rest =>
    match manifestStep st l with
    | .ok st2 => manifestSteps st2 rest
    | .error e => .error e

/-- Parsing the whole extended log (lines 79-97), before MANIFEST.md is
opened. -/
def parseManifest (lines : List String) : Except PErr MState :=
  manifestSteps initMState lines

/-- The ascending order used for `sorted(...)` of path lists. -/
def leStr (a b : String) : Prop := a ≤ b

instance : DecidableRel leStr := fun a b => inferInstanceAs (Decidable (a ≤ b))

instance : IsTotal String leStr := ⟨fun a b => le_total a b⟩

instance : IsTrans String leStr := ⟨fun _ _ _ h1 h2 => le_trans h1 h2⟩

/-- `sorted(set(list(added.keys()) + list(deleted.keys())))` (line 119). -/
def fullHistoryPaths (st : MState) : List String :=
  List.insertionSort leStr ((st.added.map Prod.fst ++ st.deleted.map Prod.fst).dedup)

/-- The annotation lines `f"  {tag}: {entry}\n"` for a path, empty when the
path is not a key of the dictionary (`if path in added:` guard). -/
def annots (tag : String) (es : Option (List String)) : String :=
  match es with
  | some l => String.join (l.map (fun e => "  " ++ tag ++ ": " ++ e ++ "\n"))
  | none => ""

/-- One entry of the "Current Files" section (lines 106-111). -/
def currentFileBlock (st : MState) (p : String) : String :=
  "📄 " ++ p ++ "\n" ++ annots "Added" (lookupEntries p st.added) ++ "\n"

/-- One entry of the "Full File History" section (lines 120-128). -/
def historyBlock (st : MState) (p : String) : String :=
  "📄 " ++ p ++ "\n"
    ++ annots "Added" (lookupEntries p st.added)
    ++ annots "Deleted" (lookupEntries p st.deleted)
    ++ "\n"

/-- The header written to MANIFEST.md before the tree-listing query is
issued (lines 100-102): if that query fails, this is the whole content the
aborted run leaves behind. -/
def manifestHeader : String := "# MANIFEST\n\n## Current Files\n\n"

/-- The complete text written to MANIFEST.md on a successful run. -/
def renderManifest (st : MState) (files : List String) : String :=
  manifestHeader
    ++ String.join ((List.insertionSort leStr files).map (currentFileBlock st))
    ++ "## Recent Changes (Last 5)\n\n"
    ++ String.join ((st.recent.take RECENT_LIMIT).map (fun l => "- " ++ l ++ "\n"))
    ++ "\n"
    ++ "## Full File History\n\n"
    ++ String.join ((fullHistoryPaths st).map (historyBlock st))

/-- The observable outcome of one invocation of the script: the final
content of each output document (`none` when never opened), the lines
printed to standard output, and the process exit code. -/
structure RunResult where
  changelogFile : Option String
  manifestFile : Option String
  printed : List String
  exit : Nat
deriving DecidableEq

/-- `build_changelog` (lines 23-69), given the outcome of the `git log`
query.  A failed query aborts before CHANGELOG.md is opened; a malformed
line aborts after only the header was written (the grouping loop raises
`ValueError` inside the `with` block). -/
def run_build_changelog (logQ : Except ExtErr (List String)) : RunResult :=
  match logQ with
  | .error _ => ⟨none, none, [], 1⟩
  | .ok lines =>
    match lines.mapM parseCommitLine with
    | none => ⟨some "# CHANGELOG\n\n", none, [], 1⟩
    | some commits =>
      ⟨some (renderChangelog commits), none, ["✅ CHANGELOG.md updated."], 0⟩

/-- `build_manifest` (lines 71-130), given the outcomes of its two
external queries.  The extended log is queried and parsed before
MANIFEST.md is opened; the tree-listing query happens after the header has
been written. -/
def run_build_manifest (logQ treeQ : Except ExtErr (List String)) : RunResult :=
  match logQ with
  | .error _ => ⟨none, none, [], 1⟩
  | .ok lines =>
    match parseManifest lines with
    | .error _ => ⟨none, none, [], 1⟩
    | .ok st =>
      match treeQ with
      | .error _ => ⟨none, some manifestHeader, [], 1⟩
      | .ok files =>
        ⟨none, some (renderManifest st files), ["✅ MANIFEST.md updated."], 0⟩

/-- The scan of `check_wip` (lines 132-138) over the log lines: the exit
code and console message, or a `ValueError` on a malformed line. -/
def checkWipLines : List String → Except Unit (Nat × List String)
  | [] => .ok (0, ["✅ No WIP commits found."])
  | l :: rest =>
    match parseCommitLine l with
    | none => .error ()
    | some c =>
      if wipMatch c.msg then
        .ok (1, ["❌ Push blocked due to WIP commit: " ++ c.msg])
      else checkWipLines rest

/-- `check_wip`, given the outcome of the `git log` query. -/
def run_check_wip (logQ : Except ExtErr (List String)) : RunResult :=
  match logQ with
  | .error _ => ⟨none, none, [], 1⟩
  | .ok lines =>
    match checkWipLines lines with
    | .error _ => ⟨none, none, [], 1⟩
    | .ok (code, msgs) => ⟨none, none, msgs, code⟩

/-- The usage message printed on a wrong argument count (line 142). -/
def usageMsg : String := "Usage: python git_toolbox.py [manifest|changelog|check-wip]"

/-- The message printed on an unrecognized command (line 153). -/
def invalidMsg : String := "Invalid command. Use one of: manifest, changelog, check-wip"

/-- The `__main__` dispatcher (lines 140-154).  `argv` is the full
`sys.argv` (program name first); the three query parameters model the
plain log, the extended log, and the tree listing. -/
def mainRun (argv : List String)
    (logQ manifestLogQ treeQ : Except ExtErr (List String)) : RunResult :=
  match argv with
  | [_, arg] =>
    let action := pyLower arg
    if action = "manifest" then run_build_manifest manifestLogQ treeQ
    else if action = "changelog" then run_build_changelog logQ
    else if action = "check-wip" then run_check_wip logQ
    else ⟨none, none, [invalidMsg], 1⟩
  | _ => ⟨none, none, [usageMsg], 1⟩

theorem pySplitAux_zero (sep : Char) (acc s : List Char) :
    pySplitAux sep 0 acc s = [acc ++ s] := by
  cases s <;> simp [pySplitAux]

theorem pySplitAux_nosep (sep : Char) (pre : List Char) (h : sep ∉ pre) :
    ∀ k acc rest, pySplitAux sep (k + 1) acc (pre ++ sep :: rest)
      = (acc ++ pre) :: pySplitAux sep k [] rest := by
  induction pre with
  | nil => intro k acc rest; simp [pySplitAux]
  | cons c cs ih =>
    intro k acc rest
    have hc : ¬ c = sep := fun hcs => h (by simp [hcs])
    have hcs : sep ∉ cs := fun hm => h (List.mem_cons_of_mem _ hm)
    simp only [List.cons_append, pySplitAux, if_neg hc, List.append_eq,
      Nat.succ_eq_add_one]
    rw [ih hcs k (acc ++ [c]) rest]
    simp

theorem pySplitAux_last (sep : Char) (s : List Char) (h : sep ∉ s) :
    ∀ k acc, pySplitAux sep k acc s = [acc ++ s] := by
  induction s with
  | nil => intro k acc; cases k <;> simp [pySplitAux]
  | cons c cs ih =>
    intro k acc
    cases k with
    | zero => simp [pySplitAux]
    | succ k =>
      have hc : ¬ c = sep := fun hcs => h (by simp [hcs])
      have hcs : sep ∉ cs := fun hm => h (List.mem_cons_of_mem _ hm)
      simp only [pySplitAux, if_neg hc]
      rw [ih hcs (k + 1) (acc ++ [c])]
      simp

theorem pySplitAux_length (sep : Char) :
    ∀ (s : List Char) (k : Nat) (acc : List Char),
      (pySplitAux sep k acc s).length ≤ k + 1 := by
  intro s
  induction s with
  | nil => intro k acc; cases k <;> simp [pySplitAux]
  | cons c cs ih =>
    intro k acc
    cases k with
    | zero => simp [pySplitAux]
    | succ k =>
      by_cases hc : c = sep
      · simp only [pySplitAux, if_pos hc, List.length_cons]
        exact Nat.succ_le_succ (ih k [])
      · simp only [pySplitAux, if_neg hc]
        exact ih (k + 1) (acc ++ [c])

theorem data_formatLine (c : Commit) :
    (formatLine c).data
      = c.hash.data ++ '|' :: (c.date.data ++ '|' :: (c.author.data ++ '|' :: c.msg.data)) := by
  simp [formatLine, String.data_append]

/-- A well-formed commit's log line parses back to the same commit, even
when the subject contains the delimiter. -/
theorem parse_format (c : Commit) (h : wfCommit c) :
    parseCommitLine (formatLine c) = some c := by
  obtain ⟨h1, h2, h3⟩ := h
  have : pySplit (formatLine c) '|' 3 = [c.hash, c.date, c.author, c.msg] := by
    unfold pySplit
    rw [data_formatLine]
    rw [show (3 : Nat) = 2 + 1 from rfl, pySplitAux_nosep '|' _ h1]
    rw [show (2 : Nat) = 1 + 1 from rfl, pySplitAux_nosep '|' _ h2]
    rw [show (1 : Nat) = 0 + 1 from rfl, pySplitAux_nosep '|' _ h3]
    rw [pySplitAux_zero]
    rfl
  rw [parseCommitLine, this]

end GitToolbox

namespace GitToolbox

theorem lookupEntries_appendEntry_self {α : Type} (key : String) (v : α) :
    ∀ m : List (String × List α),
      lookupEntries key (appendEntry key v m) = some (entriesOf key m ++ [v]) := by
  intro m
  induction m with
  | nil => simp [appendEntry, lookupEntries, entriesOf]
  | cons p rest ih =>
    obtain ⟨k, vs⟩ := p
    by_cases hk : k = key
    · simp [appendEntry, lookupEntries, entriesOf, hk]
    · simp [appendEntry, lookupEntries, entriesOf, hk, ih]

theorem lookupEntries_appendEntry_other {α : Type} (key d : String) (v : α)
    (hne : d ≠ key) :
    ∀ m : List (String × List α),
      lookupEntries d (appendEntry key v m) = lookupEntries d m := by
  have hkd : ¬ key = d := fun h => hne h.symm
  intro m
  induction m with
  | nil => simp [appendEntry, lookupEntries, hkd]
  | cons p rest ih =>
    obtain ⟨k, vs⟩ := p
    by_cases hk : k = key
    · subst hk
      simp [appendEntry, lookupEntries, hkd]
    · by_cases hd : k = d
      · subst hd
        simp [appendEntry, lookupEntries, hk]
      · simp [appendEntry, lookupEntries, hk, hd, ih]

theorem entriesOf_appendEntry_self {α : Type} (key : String) (v : α)
    (m : List (String × List α)) :
    entriesOf key (appendEntry key v m) = entriesOf key m ++ [v] := by
  simp [entriesOf, lookupEntries_appendEntry_self]

theorem entriesOf_appendEntry_other {α : Type} (key d : String) (v : α)
    (hne : d ≠ key) (m : List (String × List α)) :
    entriesOf d (appendEntry key v m) = entriesOf d m := by
  simp [entriesOf, lookupEntries_appendEntry_other key d v hne]

theorem keys_appendEntry {α : Type} (key : String) (v : α) :
    ∀ m : List (String × List α),
      (appendEntry key v m).map Prod.fst
        = if key ∈ m.map Prod.fst then m.map Prod.fst else m.map Prod.fst ++ [key] := by
  intro m
  induction m with
  | nil => simp [appendEntry]
  | cons p rest ih =>
    obtain ⟨k, vs⟩ := p
    by_cases hk : k = key
    · simp [appendEntry, hk]
    · have hkk : ¬ key = k := fun h => hk h.symm
      by_cases hmem : key ∈ rest.map Prod.fst
      · simp [appendEntry, hk, ih, hmem, hkk]
      · simp [appendEntry, hk, ih, hmem, hkk]

theorem mem_keys_appendEntry {α : Type} (x key : String) (v : α)
    (m : List (String × List α)) :
    x ∈ (appendEntry key v m).map Prod.fst ↔ x ∈ m.map Prod.fst ∨ x = key := by
  rw [keys_appendEntry]
  by_cases hmem : key ∈ m.map Prod.fst
  · simp only [if_pos hmem]
    constructor
    · exact fun h => Or.inl h
    · rintro (h | rfl)
      · exact h
      · exact hmem
  · simp [if_neg hmem]

theorem nodup_keys_appendEntry {α : Type} (key : String) (v : α)
    (m : List (String × List α)) (h : (m.map Prod.fst).Nodup) :
    ((appendEntry key v m).map Prod.fst).Nodup := by
  rw [keys_appendEntry]
  by_cases hmem : key ∈ m.map Prod.fst
  · simpa [if_pos hmem] using h
  · simp only [if_neg hmem]
    simpa [List.nodup_append, hmem] using h

theorem entriesOf_groupByDate_aux (d : String) :
    ∀ (commits : List Commit) (acc : List (String × List (String × String))),
      entriesOf d (commits.foldl (fun a c => appendEntry c.date (c.msg, c.author) a) acc)
        = entriesOf d acc
          ++ (commits.filter (fun c => c.date = d)).map (fun c => (c.msg, c.author)) := by
  intro commits
  induction commits with
  | nil => intro acc; simp
  | cons c cs ih =>
    intro acc
    simp only [List.foldl_cons]
    rw [ih]
    by_cases hd : c.date = d
    · subst hd
      rw [entriesOf_appendEntry_self]
      simp [List.filter_cons, List.append_assoc]
    · rw [entriesOf_appendEntry_other c.date d _ (fun h => hd h.symm)]
      simp [List.filter_cons, hd]

/-- The entry list of any date group equals the input commits carrying
that date, in input order, rendered as `(msg, author)` pairs. -/
theorem entriesOf_groupByDate (d : String) (commits : List Commit) :
    entriesOf d (groupByDate commits)
      = (commits.filter (fun c => c.date = d)).map (fun c => (c.msg, c.author)) := by
  have := entriesOf_groupByDate_aux d commits []
  simpa [groupByDate, entriesOf, lookupEntries] using this

theorem mem_keys_groupByDate_aux (x : String) :
    ∀ (commits : List Commit) (acc : List (String × List (String × String))),
      (x ∈ (commits.foldl (fun a c => appendEntry c.date (c.msg, c.author) a) acc).map Prod.fst
        ↔ x ∈ acc.map Prod.fst ∨ x ∈ commits.map Commit.date) := by
  intro commits
  induction commits with
  | nil => intro acc; simp
  | cons c cs ih =>
    intro acc
    simp only [List.foldl_cons, List.map_cons, List.mem_cons]
    rw [ih, mem_keys_appendEntry]
    tauto

theorem mem_keys_groupByDate (x : String) (commits : List Commit) :
    x ∈ (groupByDate commits).map Prod.fst ↔ x ∈ commits.map Commit.date := by
  have := mem_keys_groupByDate_aux x commits []
  simpa [groupByDate] using this

theorem nodup_keys_groupByDate_aux :
    ∀ (commits : List Commit) (acc : List (String × List (String × String))),
      (acc.map Prod.fst).Nodup →
      ((commits.foldl (fun a c => appendEntry c.date (c.msg, c.author) a) acc).map Prod.fst).Nodup := by
  intro commits
  induction commits with
  | nil => intro acc h; simpa using h
  | cons c cs ih =>
    intro acc h
    simp only [List.foldl_cons]
    exact ih _ (nodup_keys_appendEntry _ _ _ h)

theorem nodup_keys_groupByDate (commits : List Commit) :
    ((groupByDate commits).map Prod.fst).Nodup :=
  nodup_keys_groupByDate_aux commits [] (by simp)

theorem pairwise_and {α : Type} {R S : α → α → Prop} :
    ∀ {l : List α}, l.Pairwise R → l.Pairwise S
      → l.Pairwise (fun a b => R a b ∧ S a b) := by
  intro l hR hS
  induction l with
  | nil => exact List.Pairwise.nil
  | cons a rest ih =>
    rcases hR with _ | ⟨hRa, hRrest⟩
    rcases hS with _ | ⟨hSa, hSrest⟩
    exact List.Pairwise.cons (fun b hb => ⟨hRa b hb, hSa b hb⟩) (ih hRrest hSrest)

/-- Sorting a duplicate-free list with `reverse=True` yields a strictly
descending chain. -/
theorem chain_lt_insertionSort_ge (l : List String) (hnd : l.Nodup) :
    List.Chain' (fun a b : String => b < a) (List.insertionSort geStr l) := by
  have hsorted : (List.insertionSort geStr l).Pairwise geStr :=
    List.sorted_insertionSort geStr l
  have hnd2 : (List.insertionSort geStr l).Nodup :=
    (List.perm_insertionSort geStr l).symm.nodup hnd
  have := pairwise_and hsorted hnd2
  refine List.Pairwise.chain' (this.imp ?_)
  rintro a b ⟨hge, hne⟩
  exact lt_of_le_of_ne hge (fun h => hne h.symm)

/-- Sorting a duplicate-free list ascending yields a strictly ascending
chain. -/
theorem chain_lt_insertionSort_le (l : List String) (hnd : l.Nodup) :
    List.Chain' (fun a b : String => a < b) (List.insertionSort leStr l) := by
  have hsorted : (List.insertionSort leStr l).Pairwise leStr :=
    List.sorted_insertionSort leStr l
  have hnd2 : (List.insertionSort leStr l).Nodup :=
    (List.perm_insertionSort leStr l).symm.nodup hnd
  have := pairwise_and hsorted hnd2
  refine List.Pairwise.chain' (this.imp ?_)
  rintro a b ⟨hle, hne⟩
  exact lt_of_le_of_ne hle hne

/-- A line that contains the delimiter but does not split into exactly
three fields is silently skipped by `build_manifest`'s loop. -/
theorem step_header_skip (st : MState) (x : String)
    (h1 : pipeIn x = true) (h2 : (pySplit (pyStrip x) '|' 2).length ≠ 3) :
    manifestStep st x = .ok st := by
  rcases hp : pySplit (pyStrip x) '|' 2 with _ | ⟨a, _ | ⟨b, _ | ⟨c, _ | ⟨d, tail⟩⟩⟩⟩
  · simp [manifestStep, h1, hp]
  · simp [manifestStep, h1, hp]
  · simp [manifestStep, h1, hp]
  · exact absurd (by rw [hp]; rfl) h2
  · simp [manifestStep, h1, hp]

/-- A line the parse loop ignores entirely: either a delimiter line of the
wrong field count, or a line that is neither a header nor a status line. -/
def noEffectLine (x : String) : Prop :=
  (pipeIn x = true ∧ (pySplit (pyStrip x) '|' 2).length ≠ 3)
    ∨ (pipeIn x = false ∧ startsAD x = false)

instance (x : String) : Decidable (noEffectLine x) := by
  unfold noEffectLine; infer_instance

theorem noEffect_step (st : MState) (x : String) (h : noEffectLine x) :
    manifestStep st x = .ok st := by
  rcases h with ⟨h1, h2⟩ | ⟨h1, h2⟩
  · exact step_header_skip st x h1 h2
  · simp [manifestStep, h1, h2]

theorem manifestSteps_cons_ok (st st2 : MState) (l : String) (rest : List String)
    (h : manifestStep st l = .ok st2) :
    manifestSteps st (l :: rest) = manifestSteps st2 rest := by
  simp [manifestSteps, h]

theorem manifestSteps_cons_err (st : MState) (l : String) (rest : List String)
    (e : PErr) (h : manifestStep st l = .error e) :
    manifestSteps st (l :: rest) = .error e := by
  simp [manifestSteps, h]

theorem manifestSteps_skip_all (st : MState) :
    ∀ (pre rest : List String), (∀ x ∈ pre, noEffectLine x) →
      manifestSteps st (pre ++ rest) = manifestSteps st rest := by
  intro pre
  induction pre with
  | nil => intro rest _; rfl
  | cons x xs ih =>
    intro rest h
    have hx : noEffectLine x := h x (List.mem_cons_self x xs)
    rw [List.cons_append, manifestSteps_cons_ok st st x _ (noEffect_step st x hx)]
    exact ih rest (fun y hy => h y (List.mem_cons_of_mem x hy))

/-- A status line reaching the dictionary access with `current_commit`
still empty raises the `KeyError` modelled as `PErr.noContext`. -/
theorem step_status_noContext (st : MState) (l : String)
    (hctx : st.ctx = none) (h1 : pipeIn l = false) (h2 : startsAD l = true)
    (h3 : (pySplitWs1 l).length = 2) :
    manifestStep st l = .error .noContext := by
  rcases hp : pySplitWs1 l with _ | ⟨a, _ | ⟨b, tail⟩⟩
  · rw [hp] at h3; exact absurd h3 (by simp)
  · rw [hp] at h3; exact absurd h3 (by simp)
  · rcases tail with _ | ⟨c, tail2⟩
    · simp [manifestStep, h1, h2, hp, hctx]
    · rw [hp] at h3; exact absurd h3 (by simp)

theorem checkWipLines_clean :
    ∀ commits : List Commit,
      (∀ x ∈ commits, wfCommit x ∧ wipMatch x.msg = false) →
      checkWipLines (commits.map formatLine) = .ok (0, ["✅ No WIP commits found."]) := by
  intro commits
  induction commits with
  | nil => intro _; rfl
  | cons c cs ih =>
    intro h
    obtain ⟨hwf, hwip⟩ := h c (List.mem_cons_self c cs)
    simp only [List.map_cons, checkWipLines, parse_format c hwf, hwip,
      Bool.false_eq_true, if_false]
    exact ih (fun y hy => h y (List.mem_cons_of_mem c hy))

theorem checkWipLines_blocked (c : Commit) (post : List String)
    (hc : wfCommit c) (hw : wipMatch c.msg = true) :
    ∀ pre : List Commit,
      (∀ x ∈ pre, wfCommit x ∧ wipMatch x.msg = false) →
      checkWipLines (pre.map formatLine ++ formatLine c :: post)
        = .ok (1, ["❌ Push blocked due to WIP commit: " ++ c.msg]) := by
  intro pre
  induction pre with
  | nil =>
    intro _
    simp [checkWipLines, parse_format c hc, hw]
  | cons x xs ih =>
    intro h
    obtain ⟨hwf, hwip⟩ := h x (List.mem_cons_self x xs)
    simp only [List.map_cons, List.cons_append, checkWipLines, parse_format x hwf,
      hwip, Bool.false_eq_true, if_false]
    exact ih (fun y hy => h y (List.mem_cons_of_mem x hy))

/-- C2: `check_wip` scans the commit subjects in the received (newest-first)
order, testing each case-insensitively for the substring `WIP`.  On the
first matching subject it reports that subject and exits with code 1
without examining any later line (the trailing lines `post` are arbitrary,
even unparseable); if no subject matches it prints the success message and
exits with code 0. -/
theorem checkWip_scan (pre : List Commit) (c : Commit) (post : List String)
    (other : List Commit)
    (hpre : ∀ x ∈ pre, wfCommit x ∧ wipMatch x.msg = false)
    (hc : wfCommit c) (hw : wipMatch c.msg = true)
    (hother : ∀ x ∈ other, wfCommit x ∧ wipMatch x.msg = false) :
    run_check_wip (.ok (pre.map formatLine ++ formatLine c :: post))
      = ⟨none, none, ["❌ Push blocked due to WIP commit: " ++ c.msg], 1⟩
    ∧ run_check_wip (.ok (other.map formatLine))
      = ⟨none, none, ["✅ No WIP commits found."], 0⟩ := by
  constructor
  · simp [run_check_wip, checkWipLines_blocked c post hc hw pre hpre]
  · simp [run_check_wip, checkWipLines_clean other hother]

theorem checkWip_scan_witness :
    wipMatch "wiped the cache" = true
    ∧ run_check_wip (.ok
        ([⟨"1111", "2024-06-02", "alice", "fix bug"⟩].map formatLine
          ++ formatLine ⟨"2222", "2024-06-01", "bob", "wiped the cache"⟩
            :: ["this is not a log line"]))
      = ⟨none, none, ["❌ Push blocked due to WIP commit: " ++ "wiped the cache"], 1⟩
    ∧ run_check_wip (.ok
        ([⟨"3333", "2024-06-02", "alice", "fix bug"⟩,
          ⟨"4444", "2024-06-01", "carol", "release"⟩].map formatLine))
      = ⟨none, none, ["✅ No WIP commits found."], 0⟩ := by
  refine ⟨by decide, ?_⟩
  exact checkWip_scan
    [⟨"1111", "2024-06-02", "alice", "fix bug"⟩]
    ⟨"2222", "2024-06-01", "bob", "wiped the cache"⟩
    ["this is not a log line"]
    [⟨"3333", "2024-06-02", "alice", "fix bug"⟩,
     ⟨"4444", "2024-06-01", "carol", "release"⟩]
    (by decide) (by decide) (by decide) (by decide)

/-- C5: the log-line parser shared by the changelog path and the WIP-gate
path splits on the delimiter with a limit count, producing at most four
fields, so a subject containing the delimiter is recovered verbatim (the
round trip returns exactly the original commit, subject included). -/
theorem log_line_maxsplit (c : Commit) (s : String) (h : wfCommit c) :
    parseCommitLine (formatLine c) = some c
    ∧ (pySplit s '|' 3).length ≤ 4 := by
  refine ⟨parse_format c h, ?_⟩
  unfold pySplit
  rw [List.length_map]
  exact pySplitAux_length '|' s.data 3 []

theorem log_line_maxsplit_witness :
    wfCommit ⟨"9999", "2024-06-03", "dana", "fix: handle a|b in paths"⟩
    ∧ parseCommitLine (formatLine ⟨"9999", "2024-06-03", "dana", "fix: handle a|b in paths"⟩)
        = some ⟨"9999", "2024-06-03", "dana", "fix: handle a|b in paths"⟩
    ∧ (pySplit "a|b|c|d|e|f" '|' 3).length ≤ 4 :=
  ⟨by decide,
    log_line_maxsplit ⟨"9999", "2024-06-03", "dana", "fix: handle a|b in paths"⟩
      "a|b|c|d|e|f" (by decide)⟩

/-- C9: whatever the log query returns and whatever the scan outcome,
`check_wip` never opens or writes CHANGELOG.md or MANIFEST.md: its result
carries no file content at all, only console output and an exit code. -/
theorem checkWip_no_file_writes (logQ : Except ExtErr (List String)) :
    (run_check_wip logQ).changelogFile = none
    ∧ (run_check_wip logQ).manifestFile = none := by
  rcases logQ with e | lines
  · exact ⟨rfl, rfl⟩
  · rcases h : checkWipLines lines with e | ⟨code, msgs⟩
    · simp [run_check_wip, h]
    · simp [run_check_wip, h]

/-- C10: a line of the extended log that contains the delimiter but does
not split into exactly three fields is silently skipped by
`build_manifest`'s parse loop: no error, no file-change event, and the
current commit context is untouched, so the following lines are processed
from the very same state. -/
theorem manifest_malformed_header_skipped (st : MState) (x : String)
    (rest : List String) (h1 : pipeIn x = true)
    (h2 : (pySplit (pyStrip x) '|' 2).length ≠ 3) :
    manifestStep st x = .ok st
    ∧ manifestSteps st (x :: rest) = manifestSteps st rest := by
  have hstep := step_header_skip st x h1 h2
  exact ⟨hstep, manifestSteps_cons_ok st st x rest hstep⟩

theorem manifest_malformed_header_skipped_witness :
    pipeIn "malformed|line" = true
    ∧ (pySplit (pyStrip "malformed|line") '|' 2).length ≠ 3
    ∧ manifestStep ⟨some ⟨"aaaa", "2024-06-01", "first"⟩, [], [], []⟩ "malformed|line"
        = .ok ⟨some ⟨"aaaa", "2024-06-01", "first"⟩, [], [], []⟩
    ∧ manifestSteps ⟨some ⟨"aaaa", "2024-06-01", "first"⟩, [], [], []⟩
        ["malformed|line", "A\tdocs/guide.md"]
      = manifestSteps ⟨some ⟨"aaaa", "2024-06-01", "first"⟩, [], [], []⟩
          ["A\tdocs/guide.md"] :=
  ⟨by decide, by decide,
    manifest_malformed_header_skipped
      ⟨some ⟨"aaaa", "2024-06-01", "first"⟩, [], [], []⟩
      "malformed|line" ["A\tdocs/guide.md"] (by decide) (by decide)⟩

theorem history_map_fst (commits : List Commit) :
    (changelogHistory commits).map Prod.fst = changelogDates commits := by
  rw [changelogHistory, List.map_map]
  exact List.map_id _

/-- C3: the changelog's full-history part emits its date subsections in
strictly descending lexicographic order with no duplicate date headers;
the subsection of any date `d` holds exactly the input commits carrying
date `d`, as `(subject, author)` pairs in input order, and the set of
subsection dates is exactly the set of input commit dates (so every commit
lands in exactly one group). -/
theorem changelog_full_history_grouping (commits : List Commit) (d : String) :
    List.Chain' (fun a b : String => b < a) ((changelogHistory commits).map Prod.fst)
    ∧ ((changelogHistory commits).map Prod.fst).Nodup
    ∧ ((changelogHistory commits).map Prod.fst).toFinset
        = (commits.map Commit.date).toFinset
    ∧ entriesOf d (groupByDate commits)
        = (commits.filter (fun c => c.date = d)).map (fun c => (c.msg, c.author)) := by
  rw [history_map_fst]
  refine ⟨?_, ?_, ?_, entriesOf_groupByDate d commits⟩
  · exact chain_lt_insertionSort_ge _ (nodup_keys_groupByDate commits)
  · exact (List.perm_insertionSort geStr _).symm.nodup (nodup_keys_groupByDate commits)
  · ext x
    rw [List.mem_toFinset, List.mem_toFinset, changelogDates,
      List.mem_insertionSort, mem_keys_groupByDate]

/-- C4: for a non-empty commit sequence the Summary section has exactly
`min 5 total` entries: the first `RECENT_LIMIT` commits of the input in
input order, each rendered as `- date — subject — Author: author`. -/
theorem changelog_summary_spec (commits : List Commit) (_h : commits ≠ []) :
    (changelogSummary commits).length = min RECENT_LIMIT commits.length
    ∧ changelogSummary commits
        = (commits.take RECENT_LIMIT).map
            (fun c => "- " ++ c.date ++ " — " ++ c.msg ++ " — Author: " ++ c.author ++ "\n") := by
  constructor
  · simp [changelogSummary]
  · rfl

theorem changelog_summary_spec_witness :
    ([(⟨"aaaa", "2024-06-01", "alice", "init"⟩ : Commit)] ≠ [])
    ∧ ((changelogSummary [⟨"aaaa", "2024-06-01", "alice", "init"⟩]).length
        = min RECENT_LIMIT [(⟨"aaaa", "2024-06-01", "alice", "init"⟩ : Commit)].length
      ∧ changelogSummary [⟨"aaaa", "2024-06-01", "alice", "init"⟩]
          = ([(⟨"aaaa", "2024-06-01", "alice", "init"⟩ : Commit)].take RECENT_LIMIT).map
              (fun c => "- " ++ c.date ++ " — " ++ c.msg ++ " — Author: " ++ c.author ++ "\n")) :=
  ⟨by decide,
    changelog_summary_spec [⟨"aaaa", "2024-06-01", "alice", "init"⟩] (by decide)⟩

/-- C1 counterexample: when the tree-listing query of `build_manifest`
fails, MANIFEST.md has already been opened, truncated and partially
written: the run leaves it holding just the header and the Current Files
heading (a non-`none`, non-empty partial document), contradicting the
claim that no external-query failure ever leaves a partial document. -/
theorem treeQuery_failure_truncates_manifest :
    run_build_manifest (Except.ok ["dddd|2024-06-01|first"]) (Except.error ExtErr.toolError)
      = ⟨none, some manifestHeader, [], 1⟩
    ∧ (run_build_manifest (Except.ok ["dddd|2024-06-01|first"])
        (Except.error ExtErr.toolError)).manifestFile ≠ none
    ∧ manifestHeader ≠ "" := by
  refine ⟨rfl, ?_, ?_⟩ <;> decide

/-- C1 (amended): a failure of the log query aborts `build_changelog` and
`build_manifest` with a non-zero exit before their output document is
opened, so no partial document is written in that case; but a failure of
the tree-listing query aborts `build_manifest` after MANIFEST.md has been
truncated and its header written, leaving exactly that partial content
behind (still with a non-zero exit). -/
theorem toolError_abort_behavior (e : ExtErr) (treeQ : Except ExtErr (List String))
    (lines : List String) (st : MState) (hp : parseManifest lines = .ok st) :
    run_build_changelog (.error e) = ⟨none, none, [], 1⟩
    ∧ run_build_manifest (.error e) treeQ = ⟨none, none, [], 1⟩
    ∧ run_build_manifest (.ok lines) (.error e) = ⟨none, some manifestHeader, [], 1⟩ := by
  refine ⟨rfl, rfl, ?_⟩
  simp [run_build_manifest, hp]

theorem toolError_abort_behavior_witness :
    parseManifest ["dddd|2024-06-01|first"]
      = .ok ⟨some ⟨"dddd", "2024-06-01", "first"⟩, [], [], []⟩
    ∧ (run_build_changelog (.error ExtErr.toolError) = ⟨none, none, [], 1⟩
      ∧ run_build_manifest (.error ExtErr.toolError) (Except.ok []) = ⟨none, none, [], 1⟩
      ∧ run_build_manifest (.ok ["dddd|2024-06-01|first"]) (.error ExtErr.toolError)
          = ⟨none, some manifestHeader, [], 1⟩) :=
  ⟨rfl,
    toolError_abort_behavior ExtErr.toolError (Except.ok [])
      ["dddd|2024-06-01|first"] ⟨some ⟨"dddd", "2024-06-01", "first"⟩, [], [], []⟩ rfl⟩

/-- C7: if a status-prefixed file line is reached before any header line
has set the commit context, `build_manifest` raises the parse error
(Python's `KeyError` on the empty context dictionary) while still in the
parse phase, before MANIFEST.md is opened, so the run writes nothing and
exits non-zero. -/
theorem manifest_status_before_header (pre : List String) (l : String)
    (post : List String) (treeQ : Except ExtErr (List String))
    (hpre : ∀ x ∈ pre, noEffectLine x)
    (h1 : pipeIn l = false) (h2 : startsAD l = true)
    (h3 : (pySplitWs1 l).length = 2) :
    parseManifest (pre ++ l :: post) = .error .noContext
    ∧ run_build_manifest (.ok (pre ++ l :: post)) treeQ = ⟨none, none, [], 1⟩ := by
  have hparse : parseManifest (pre ++ l :: post) = .error .noContext := by
    unfold parseManifest
    rw [manifestSteps_skip_all initMState pre (l :: post) hpre]
    exact manifestSteps_cons_err initMState l post _
      (step_status_noContext initMState l rfl h1 h2 h3)
  refine ⟨hparse, ?_⟩
  simp [run_build_manifest, hparse]

theorem manifest_status_before_header_witness :
    (∀ x ∈ ["random garbage"], noEffectLine x)
    ∧ (parseManifest (["random garbage"] ++ "A\tREADME.md" :: ["dddd|2024-06-01|late header"])
        = .error .noContext
      ∧ run_build_manifest
          (.ok (["random garbage"] ++ "A\tREADME.md" :: ["dddd|2024-06-01|late header"]))
          (Except.ok ["README.md"])
        = ⟨none, none, [], 1⟩) :=
  ⟨by decide,
    manifest_status_before_header ["random garbage"] "A\tREADME.md"
      ["dddd|2024-06-01|late header"] (Except.ok ["README.md"])
      (by decide) (by decide) (by decide) (by decide)⟩

/-- C6: the manifest's Full File History section lists exactly the union
of the paths holding Added events and the paths holding Deleted events,
each path once, in strictly ascending lexicographic order; a path with no
Added events (only Deleted ones) is rendered with its Deleted annotations
and no Added annotation block. -/
theorem manifest_full_history_spec (lines : List String) (st : MState) (p : String)
    (_hparse : parseManifest lines = .ok st)
    (hnoadd : lookupEntries p st.added = none) :
    List.Chain' (fun a b : String => a < b) (fullHistoryPaths st)
    ∧ (fullHistoryPaths st).Nodup
    ∧ (fullHistoryPaths st).toFinset
        = (st.added.map Prod.fst).toFinset ∪ (st.deleted.map Prod.fst).toFinset
    ∧ historyBlock st p
        = "📄 " ++ p ++ "\n" ++ annots "Deleted" (lookupEntries p st.deleted) ++ "\n" := by
  have hnd : ((st.added.map Prod.fst ++ st.deleted.map Prod.fst).dedup).Nodup :=
    List.nodup_dedup _
  refine ⟨chain_lt_insertionSort_le _ hnd,
    (List.perm_insertionSort leStr _).symm.nodup hnd, ?_, ?_⟩
  · ext x
    rw [List.mem_toFinset, Finset.mem_union, List.mem_toFinset, List.mem_toFinset,
      fullHistoryPaths, List.mem_insertionSort, List.mem_dedup, List.mem_append]
  · rw [historyBlock, hnoadd]
    show "📄 " ++ p ++ "\n" ++ "" ++ annots "Deleted" (lookupEntries p st.deleted) ++ "\n"
      = "📄 " ++ p ++ "\n" ++ annots "Deleted" (lookupEntries p st.deleted) ++ "\n"
    rw [String.append_empty]

def sampleSt : MState :=
  ⟨some ⟨"dddd", "2024-06-01", "first"⟩,
    [("src/new.py", ["2024-06-01 — first"])],
    [("docs/old.md", ["2024-06-01 — first"])],
    ["2024-06-01 — Deleted docs/old.md — \"first\"",
     "2024-06-01 — Added src/new.py — \"first\""]⟩

theorem manifest_full_history_spec_witness :
    parseManifest ["dddd|2024-06-01|first", "D\tdocs/old.md", "A\tsrc/new.py"]
      = .ok sampleSt
    ∧ lookupEntries "docs/old.md" sampleSt.added = none
    ∧ (List.Chain' (fun a b : String => a < b) (fullHistoryPaths sampleSt)
      ∧ (fullHistoryPaths sampleSt).Nodup
      ∧ (fullHistoryPaths sampleSt).toFinset
          = (sampleSt.added.map Prod.fst).toFinset
            ∪ (sampleSt.deleted.map Prod.fst).toFinset
      ∧ historyBlock sampleSt "docs/old.md"
          = "📄 " ++ "docs/old.md" ++ "\n"
            ++ annots "Deleted" (lookupEntries "docs/old.md" sampleSt.deleted)
            ++ "\n") :=
  ⟨rfl, rfl,
    manifest_full_history_spec
      ["dddd|2024-06-01|first", "D\tdocs/old.md", "A\tsrc/new.py"]
      sampleSt "docs/old.md" rfl rfl⟩

/-- C8: the entry point requires exactly one positional argument (two
entries of `sys.argv`), matched case-insensitively against `manifest`,
`changelog` and `check-wip`, dispatching to the matching operation; any
other argument count, or an unrecognized value, prints a usage message on
standard output and exits with code 1 without dispatching and without
touching any output file. -/
theorem cli_dispatch (argv : List String) (prog am pm ac pc aw pw arg : String)
    (q1 q2 q3 r1 r2 r3 : Except ExtErr (List String))
    (hlen : argv.length ≠ 2)
    (hbad1 : pyLower arg ≠ "manifest") (hbad2 : pyLower arg ≠ "changelog")
    (hbad3 : pyLower arg ≠ "check-wip")
    (hm : pyLower am = "manifest") (hc : pyLower ac = "changelog")
    (hw : pyLower aw = "check-wip") :
    mainRun argv q1 q2 q3 = ⟨none, none, [usageMsg], 1⟩
    ∧ mainRun [prog, arg] r1 r2 r3 = ⟨none, none, [invalidMsg], 1⟩
    ∧ mainRun [pm, am] q1 q2 q3 = run_build_manifest q2 q3
    ∧ mainRun [pc, ac] q1 q2 q3 = run_build_changelog q1
    ∧ mainRun [pw, aw] q1 q2 q3 = run_check_wip q1 := by
  refine ⟨?_, ?_, ?_, ?_, ?_⟩
  · rcases argv with _ | ⟨a, _ | ⟨b, _ | ⟨x, t⟩⟩⟩
    · rfl
    · rfl
    · exact absurd rfl hlen
    · rfl
  · simp [mainRun, hbad1, hbad2, hbad3]
  · simp [mainRun, hm]
  · have : pyLower ac ≠ "manifest" := by rw [hc]; decide
    simp [mainRun, hc, this]
  · have h1 : pyLower aw ≠ "manifest" := by rw [hw]; decide
    have h2 : pyLower aw ≠ "changelog" := by rw [hw]; decide
    simp [mainRun, hw, h1, h2]

theorem cli_dispatch_witness :
    (["git_toolbox.py"] : List String).length ≠ 2
    ∧ pyLower "build" ≠ "manifest" ∧ pyLower "build" ≠ "changelog"
    ∧ pyLower "build" ≠ "check-wip"
    ∧ pyLower "MANIFEST" = "manifest" ∧ pyLower "ChangeLog" = "changelog"
    ∧ pyLower "Check-WIP" = "check-wip"
    ∧ (mainRun ["git_toolbox.py"] (Except.ok []) (Except.ok []) (Except.ok [])
        = ⟨none, none, [usageMsg], 1⟩
      ∧ mainRun ["git_toolbox.py", "build"] (Except.ok ["x"]) (Except.ok ["y"]) (Except.ok ["z"])
        = ⟨none, none, [invalidMsg], 1⟩
      ∧ mainRun ["git_toolbox.py", "MANIFEST"] (Except.ok []) (Except.ok []) (Except.ok [])
        = run_build_manifest (Except.ok []) (Except.ok [])
      ∧ mainRun ["git_toolbox.py", "ChangeLog"] (Except.ok []) (Except.ok []) (Except.ok [])
        = run_build_changelog (Except.ok [])
      ∧ mainRun ["git_toolbox.py", "Check-WIP"] (Except.ok []) (Except.ok []) (Except.ok [])
        = run_check_wip (Except.ok [])) :=
  ⟨by decide, by decide, by decide, by decide, by decide, by decide, by decide,
    cli_dispatch ["git_toolbox.py"] "git_toolbox.py" "MANIFEST" "git_toolbox.py"
      "ChangeLog" "git_toolbox.py" "Check-WIP" "git_toolbox.py" "build"
      (Except.ok []) (Except.ok []) (Except.ok [])
      (Except.ok ["x"]) (Except.ok ["y"]) (Except.ok ["z"])
      (by decide) (by decide) (by decide) (by decide)
      (by decide) (by decide) (by decide)⟩

end GitToolbox
